import Mathlib

/- Verification of the wiki-page text-analytics pipeline (classes.py).

   Shallow embedding of the extraction-and-analytics core:
   - Extractor._fetch_data (sentence segmentation and word tokenization),
   - the stateful Extractor.extract_sentences / extract_words wrappers,
   - PageAnalytics.make_analytics (frequency tables, length statistics,
     longest sentence),
   - PageAnalytics.save_to_json and PageAnalytics.__str__.

   Python strings are modelled as lists of characters; numpy floats as
   Option ℚ, with none standing for NaN; a Python run-time exception
   (ValueError) is modelled as a none result of the whole operation. -/

/-- A Python string, modelled as its list of characters. -/
abbrev Str := List Char

/-- Conversion from a Lean string literal. -/
def pystr (s : String) : Str := s.data

/-- The ASCII whitespace class recognised by Python str.strip and str.split. -/
def isWS (c : Char) : Bool :=
  c = ' ' || c = '\t' || c = '\n' || c = '\r' || c = '\x0b' || c = '\x0c'

/-- The sentence-terminator character class of the regex [.!?] used by
Extractor._fetch_data (classes.py line 235). -/
def isTerm (c : Char) : Bool := c = '.' || c = '!' || c = '?'

/-- re.split semantics: cut the string at every character satisfying p.
n separator occurrences yield n+1 (possibly empty) pieces; acc holds the
current piece reversed. -/
def splitAux (p : Char → Bool) : List Char → List Char → List Str
  | [], acc => [acc.reverse]
  | c :: cs, acc => if p c then acc.reverse :: splitAux p cs [] else splitAux p cs (c :: acc)

/-- re.split(pattern, s) for a single-character-class pattern. -/
def splitOnPred (p : Char → Bool) (s : Str) : List Str := splitAux p s []

/-- Python str.strip(): drop leading and trailing whitespace. -/
def pyStrip (s : Str) : Str := ((s.dropWhile isWS).reverse.dropWhile isWS).reverse

/-- Python str.split() with no argument: split on whitespace runs and drop
empty tokens. -/
def pySplit (s : Str) : List Str := (splitOnPred isWS s).filter (fun t => !t.isEmpty)

/-- The sentence part of Extractor._fetch_data (classes.py line 236):
for each paragraph text, split on the terminator class, strip each piece and
keep the pieces that are non-empty after stripping, concatenating the results
in paragraph order. -/
def fetchSentences (texts : List Str) : List Str :=
  texts.flatMap (fun text => ((splitOnPred isTerm text).map pyStrip).filter (fun s => !s.isEmpty))

/-- The word part of Extractor._fetch_data (classes.py line 239): flatten the
sentences by whitespace splitting. -/
def fetchWords (sentences : List Str) : List Str := sentences.flatMap pySplit

/-- The mutable state of an Extractor instance (classes.py lines 193-198):
both fields start as None and are filled by _fetch_data. -/
structure Extractor where
  sentences : Option (List Str)
  words : Option (List Str)
deriving DecidableEq

/-- Extractor._fetch_data (classes.py lines 224-239): compute and store both
sequences from the page's paragraph texts. -/
def fetchData (paragraphs : List Str) : Extractor :=
  { sentences := some (fetchSentences paragraphs)
    words := some (fetchWords (fetchSentences paragraphs)) }

/-- Extractor.extract_sentences (classes.py lines 200-210): fetch only when
self.sentences is None, then hand self.sentences to the PageContent. Returns
the updated extractor state and the sentence list written to the PageContent. -/
def extract_sentences (e : Extractor) (paragraphs : List Str) : Extractor × List Str :=
  match e.sentences with
  | some ss => (e, ss)
  | none => (fetchData paragraphs, fetchSentences paragraphs)

/-- Extractor.extract_words (classes.py lines 212-222): fetch only when
self.words is None, then hand self.words to the PageContent. -/
def extract_words (e : Extractor) (paragraphs : List Str) : Extractor × List Str :=
  match e.words with
  | some ws => (e, ws)
  | none => (fetchData paragraphs, fetchWords (fetchSentences paragraphs))

/-- Stable insertion of an element into a list: it lands in front of the first
element it compares le to. -/
def insSorted {α : Type} (le : α → α → Bool) (a : α) : List α → List α
  | [] => [a]
  | b :: bs => if le a b then a :: b :: bs else b :: insSorted le a bs

/-- Stable insertion sort, the model of Python's sorted(...) and of
heapq.nlargest (both are stable). -/
def stableSort {α : Type} (le : α → α → Bool) : List α → List α
  | [] => []
  | a :: as => insSorted le a (stableSort le as)

/-- Descending comparison by a numeric key: a sorts before b when
key b ≤ key a. A stable sort with this relation is exactly Python's
sorted(..., key=key, reverse=True): descending keys, ties kept in original
order. -/
def keyGE {α : Type} (key : α → Nat) (a b : α) : Bool := decide (key b ≤ key a)

/-- First-seen-order deduplication: the key order of a Python dict or Counter
built by scanning a list. -/
def firstSeen : List Str → List Str
  | [] => []
  | w :: ws => w :: (firstSeen ws).filter (fun x => decide (x ≠ w))

/-- Counter(words), as an insertion-ordered association list word → count. -/
def counter (ws : List Str) : List (Str × Nat) :=
  (firstSeen ws).map (fun w => (w, ws.count w))

/-- Counter.most_common(n): the n highest-count entries, ties broken by
first-seen order (heapq.nlargest is stable over the dict's insertion order). -/
def most_common (n : Nat) (ws : List Str) : List (Str × Nat) :=
  (stableSort (keyGE Prod.snd) (counter ws)).take n

/-- word_freq_top20 = dict(Counter(words).most_common(20)) (classes.py line 289). -/
def word_freq_top20 (ws : List Str) : List (Str × Nat) := most_common 20 ws

/-- The fixed stopword set of make_analytics (classes.py line 292). -/
def stopwords : List Str :=
  [pystr "and", pystr "or", pystr "but", pystr "in", pystr "on", pystr "at",
   pystr "with", pystr "for", pystr "the", pystr "a"]

/-- word.lower() (ASCII case folding, which is all the stopword comparison
exercises). -/
def lowerStr (w : Str) : Str := w.map Char.toLower

/-- filtered_word_freq (classes.py line 293): the entries of the top-20 table
whose lowercased word is not a stopword. -/
def filtered_word_freq (ws : List Str) : List (Str × Nat) :=
  (word_freq_top20 ws).filter (fun e => !decide (lowerStr e.1 ∈ stopwords))

/-- top_10_word_freq (classes.py line 296):
dict(sorted(word_freq_top20.items(), key=count, reverse=True)[:10]). -/
def top_10_word_freq (ws : List Str) : List (Str × Nat) :=
  (stableSort (keyGE Prod.snd) (word_freq_top20 ws)).take 10

/-- top_10_filtered_word_freq (classes.py line 299). -/
def top_10_filtered_word_freq (ws : List Str) : List (Str × Nat) :=
  (stableSort (keyGE Prod.snd) (filtered_word_freq ws)).take 10

/-- longest_words (classes.py line 311): sorted(words, key=len, reverse=True)[:10]. -/
def longest_words (ws : List Str) : List Str :=
  (stableSort (keyGE List.length) ws).take 10

/-- longest_words_dict (classes.py line 312): a dict keyed by the word string,
so repeated words collapse to one key; keys appear in first-insertion order. -/
def longest_words_dict (ws : List Str) : List (Str × Nat) :=
  (firstSeen (longest_words ws)).map (fun w => (w, w.length))

/-- np.mean over a list of naturals; the empty array yields NaN, modelled as
none. -/
def npMean (l : List Nat) : Option ℚ :=
  if l.length = 0 then none
  else some ((l.map (fun n => (n : ℚ))).sum / l.length)

/-- np.median: sort ascending, take the middle element, or the mean of the two
middle elements for even length; NaN (none) on the empty array. -/
def npMedian (l : List Nat) : Option ℚ :=
  if l.length = 0 then none
  else
    let s := stableSort (fun a b => decide (a ≤ b)) l
    if l.length % 2 = 1 then some ((s.getD (l.length / 2) 0 : ℚ))
    else some (((s.getD (l.length / 2 - 1) 0 : ℚ) + (s.getD (l.length / 2) 0 : ℚ)) / 2)

/-- len(sentence.split()): the word count of a sentence. -/
def wordCount (s : Str) : Nat := (pySplit s).length

/-- The fold performed by Python max(seq, key=key) after taking the head as the
initial candidate: a later element replaces the candidate only when its key is
strictly greater, so the result is the first element attaining the maximum key. -/
def runMax {α : Type} (key : α → Nat) (a : α) (as : List α) : α :=
  as.foldl (fun best x => if key best < key x then x else best) a

/-- Python max(seq, key=key): ValueError (none) on an empty sequence. -/
def pyMax {α : Type} (key : α → Nat) : List α → Option α
  | [] => none
  | a :: as => some (runMax key a as)

/-- The analytics_data record produced by PageAnalytics.make_analytics
(classes.py lines 282-323), with one field per stored key. -/
structure AnalyticsData where
  top_10_words : List (Str × Nat)
  top_10_words_filtered : List (Str × Nat)
  average_word_length : Option ℚ
  median_word_length : Option ℚ
  top_10_longest_words : List (Str × Nat)
  average_sentence_length : Option ℚ
  median_sentence_length : Option ℚ
  longest_sentence : Str
deriving DecidableEq

/-- PageAnalytics.make_analytics (classes.py lines 282-323). The only
run-time exception is max(sentences, ...) on an empty sentence list
(ValueError), modelled as a none result; np.mean and np.median of an empty
array silently produce NaN, modelled as none values inside the record. -/
def make_analytics (words sentences : List Str) : Option AnalyticsData :=
  match pyMax wordCount sentences with
  | none => none
  | some ls => some
    { top_10_words := top_10_word_freq words
      top_10_words_filtered := top_10_filtered_word_freq words
      average_word_length := npMean (words.map List.length)
      median_word_length := npMedian (words.map List.length)
      top_10_longest_words := longest_words_dict words
      average_sentence_length := npMean (sentences.map wordCount)
      median_sentence_length := npMedian (sentences.map wordCount)
      longest_sentence := ls }

/-- A Python value stored in the analytics_data dict. -/
inductive PyVal where
  | npfloat (q : Option ℚ)
  | s (v : Str)
  | freq (t : List (Str × Nat))
deriving DecidableEq

/-- analytics_data as the insertion-ordered dict built by make_analytics
(assignment order of classes.py lines 302-323). -/
def analyticsDict (a : AnalyticsData) : List (Str × PyVal) :=
  [(pystr "top_10_words", PyVal.freq a.top_10_words),
   (pystr "top_10_words_filtered", PyVal.freq a.top_10_words_filtered),
   (pystr "average_word_length", PyVal.npfloat a.average_word_length),
   (pystr "median_word_length", PyVal.npfloat a.median_word_length),
   (pystr "top_10_longest_words", PyVal.freq a.top_10_longest_words),
   (pystr "average_sentence_length", PyVal.npfloat a.average_sentence_length),
   (pystr "median_sentence_length", PyVal.npfloat a.median_sentence_length),
   (pystr "longest_sentence", PyVal.s a.longest_sentence)]

/-- The state of a PageAnalytics object: the page url (held through
page_content) and the analytics_data dict. -/
structure PageAnalytics where
  url : Str
  analytics_data : List (Str × PyVal)
deriving DecidableEq

/-- Python dict assignment d[k] = v: overwrite in place when the key exists
(keeping its position), else append the new key at the end. -/
def dictSet (d : List (Str × PyVal)) (k : Str) (v : PyVal) : List (Str × PyVal) :=
  if d.any (fun e => decide (e.1 = k)) then
    d.map (fun e => if e.1 = k then (e.1, v) else e)
  else d ++ [(k, v)]

/-- Python dict lookup d[k]; a KeyError is modelled as none. -/
def dictGet (d : List (Str × PyVal)) (k : Str) : Option PyVal :=
  (d.find? (fun e => decide (e.1 = k))).map Prod.snd

/-- PageAnalytics.save_to_json (classes.py lines 325-334): first assigns
analytics_data["url"] = page_content.url on the live object, then dumps the
dict. Returns the mutated object state together with the serialized record. -/
def save_to_json (p : PageAnalytics) : PageAnalytics × List (Str × PyVal) :=
  let d := dictSet p.analytics_data (pystr "url") (PyVal.s p.url)
  ({ url := p.url, analytics_data := d }, d)

/-- Decimal digits of a natural number. -/
def natDigits (n : Nat) : Str := Nat.toDigits 10 n

/-- Fixed two-decimal rendering of a numpy float ("{x:.2f}"); NaN prints as
"nan". The rational is rounded to hundredths. -/
def fmtFixed2 (q : Option ℚ) : Str :=
  match q with
  | none => pystr "nan"
  | some x =>
    let n : Int := round (x * 100)
    let m : Nat := n.natAbs
    (if n < 0 then [Char.ofNat 45] else []) ++ natDigits (m / 100) ++ [Char.ofNat 46] ++
      (if m % 100 < 10 then Char.ofNat 48 :: natDigits (m % 100) else natDigits (m % 100))

/-- Applying the f-string format spec ":.2f" to a value: defined on a float,
but a ValueError (none) on any other value — in particular on a str, where
CPython raises "Unknown format code f for object of type str". -/
def applyF2 : PyVal → Option Str
  | PyVal.npfloat q => some (fmtFixed2 q)
  | _ => none

/-- The single-quote character used by Python repr of strings. -/
def quoteChar : Char := Char.ofNat 39

/-- Python str() of a frequency dict, as interpolated by a plain f-string
field. (A float never reaches plain interpolation in __str__ — every numeric
line carries the :.2f spec — so the npfloat branch is immaterial.) -/
def strVal : PyVal → Str
  | PyVal.npfloat q => fmtFixed2 q
  | PyVal.s v => v
  | PyVal.freq t =>
    [Char.ofNat 123] ++
      (List.intercalate (pystr ", ")
        (t.map (fun e => [quoteChar] ++ e.1 ++ [quoteChar] ++ pystr ": " ++ natDigits e.2))) ++
    [Char.ofNat 125]

/-- The newline appended to every line of __str__. -/
def nl : Str := [Char.ofNat 10]

/-- PageAnalytics.__str__ (classes.py lines 336-349). Every line interpolates
one field of analytics_data; the four average/median lines format their value
with :.2f, and the final line also applies :.2f to the longest_sentence value.
A missing key or a formatting ValueError makes the rendering fail (none). -/
def pageAnalyticsStr (p : PageAnalytics) : Option Str := do
  let v1 ← dictGet p.analytics_data (pystr "top_10_words")
  let v2 ← dictGet p.analytics_data (pystr "top_10_words_filtered")
  let v3 ← dictGet p.analytics_data (pystr "average_word_length")
  let f3 ← applyF2 v3
  let v4 ← dictGet p.analytics_data (pystr "median_word_length")
  let f4 ← applyF2 v4
  let v5 ← dictGet p.analytics_data (pystr "top_10_longest_words")
  let v6 ← dictGet p.analytics_data (pystr "average_sentence_length")
  let f6 ← applyF2 v6
  let v7 ← dictGet p.analytics_data (pystr "median_sentence_length")
  let f7 ← applyF2 v7
  let v8 ← dictGet p.analytics_data (pystr "longest_sentence")
  let f8 ← applyF2 v8
  pure (pystr "Page Analytics for " ++ p.url ++ nl ++
    pystr "Top 10 Words: " ++ strVal v1 ++ nl ++
    pystr "Top 10 Words (No Stopwords): " ++ strVal v2 ++ nl ++
    pystr "Average Word Length: " ++ f3 ++ nl ++
    pystr "Median Word Length: " ++ f4 ++ nl ++
    pystr "Top 10 Longest Words: " ++ strVal v5 ++ nl ++
    pystr "Average Sentence Length: " ++ f6 ++ nl ++
    pystr "Median Sentence Length: " ++ f7 ++ nl ++
    pystr "The longest Sentence: " ++ f8 ++ nl)

/-- The end-to-end example document of the specification:
two paragraphs, three sentences, eight words. -/
def exParagraphs : List Str := [pystr "The cat sat. The cat ran!", pystr "Dogs bark."]

def exSentences : List Str := fetchSentences exParagraphs

def exWords : List Str := fetchWords exSentences

/-- A PageAnalytics object computed from the example document. -/
def examplePage : PageAnalytics :=
  { url := pystr "https://example.com"
    analytics_data := (make_analytics exWords exSentences).elim [] analyticsDict }

/-- Inserting an element is a permutation of consing it. -/
theorem insSorted_perm {α : Type} (le : α → α → Bool) (a : α) :
    ∀ l : List α, (insSorted le a l).Perm (a :: l) := by
  intro l
  induction l with
  | nil => exact List.Perm.refl _
  | cons b bs ih =>
    rw [insSorted]
    split
    · exact List.Perm.refl _
    · exact (ih.cons b).trans (List.Perm.swap a b bs)

/-- The stable sort is a permutation of its input. -/
theorem stableSort_perm {α : Type} (le : α → α → Bool) :
    ∀ l : List α, (stableSort le l).Perm l := by
  intro l
  induction l with
  | nil => exact List.Perm.refl _
  | cons a as ih =>
    rw [stableSort]
    exact (insSorted_perm le a (stableSort le as)).trans (ih.cons a)

theorem mem_stableSort {α : Type} (le : α → α → Bool) (l : List α) (a : α) :
    a ∈ stableSort le l ↔ a ∈ l := (stableSort_perm le l).mem_iff

theorem length_stableSort {α : Type} (le : α → α → Bool) (l : List α) :
    (stableSort le l).length = l.length := (stableSort_perm le l).length_eq

/-- Inserting into a list already sorted by descending key keeps it sorted. -/
theorem pairwise_insSorted {α : Type} (key : α → Nat) (a : α) :
    ∀ l : List α, l.Pairwise (fun x y => key y ≤ key x) →
      (insSorted (keyGE key) a l).Pairwise (fun x y => key y ≤ key x) := by
  intro l
  induction l with
  | nil => intro _; exact List.pairwise_singleton _ a
  | cons b bs ih =>
    intro h
    rw [List.pairwise_cons] at h
    obtain ⟨h1, h2⟩ := h
    rw [insSorted]
    split
    · next hab =>
      rw [keyGE, decide_eq_true_eq] at hab
      rw [List.pairwise_cons]
      refine ⟨?_, ?_⟩
      · intro y hy
        rw [List.mem_cons] at hy
        rcases hy with rfl | hy
        · exact hab
        · exact (h1 y hy).trans hab
      · rw [List.pairwise_cons]; exact ⟨h1, h2⟩
    · next hab =>
      rw [keyGE, decide_eq_true_eq] at hab
      push_neg at hab
      rw [List.pairwise_cons]
      refine ⟨?_, ih h2⟩
      intro y hy
      rw [(insSorted_perm (keyGE key) a bs).mem_iff, List.mem_cons] at hy
      rcases hy with rfl | hy
      · exact hab.le
      · exact h1 y hy

/-- The stable sort with a descending key comparison is sorted: keys are
non-increasing along the result. -/
theorem pairwise_stableSort {α : Type} (key : α → Nat) :
    ∀ l : List α, (stableSort (keyGE key) l).Pairwise (fun x y => key y ≤ key x) := by
  intro l
  induction l with
  | nil => simp [stableSort]
  | cons a as ih =>
    rw [stableSort]
    exact pairwise_insSorted key a _ ih

/-- Sorting a list that is already sorted leaves it unchanged (the stable sort
never reorders an agreeing input). -/
theorem stableSort_eq_of_pairwise {α : Type} (key : α → Nat) :
    ∀ l : List α, l.Pairwise (fun x y => key y ≤ key x) →
      stableSort (keyGE key) l = l := by
  intro l
  induction l with
  | nil => intro _; rfl
  | cons a as ih =>
    intro h
    rw [List.pairwise_cons] at h
    obtain ⟨h1, h2⟩ := h
    rw [stableSort, ih h2]
    cases as with
    | nil => rfl
    | cons b bs =>
      rw [insSorted, if_pos]
      rw [keyGE, decide_eq_true_eq]
      exact h1 b (by simp)

/-- Stability of the insertion, phrased through filtering on one key value:
the elements of a given key keep their relative order. -/
theorem filter_key_insSorted {α : Type} (key : α → Nat) (c : Nat) (a : α) :
    ∀ l : List α,
      (insSorted (keyGE key) a l).filter (fun x => decide (key x = c)) =
        if key a = c then a :: l.filter (fun x => decide (key x = c))
        else l.filter (fun x => decide (key x = c)) := by
  intro l
  induction l with
  | nil =>
    rw [insSorted]
    by_cases hc : key a = c
    · simp [List.filter, hc]
    · simp [List.filter, hc]
  | cons b bs ih =>
    rw [insSorted]
    split
    · next hab =>
      by_cases hc : key a = c
      · simp [List.filter, hc]
      · simp [List.filter, hc]
    · next hab =>
      rw [keyGE, decide_eq_true_eq] at hab
      push_neg at hab
      by_cases hc : key a = c
      · have hbc : ¬ key b = c := by omega
        simp only [List.filter, ih]
        simp [hc, hbc]
      · by_cases hbc : key b = c
        · simp only [List.filter, ih]
          simp [hc, hbc]
        · simp only [List.filter, ih]
          simp [hc, hbc]

/-- Stability of the sort: for every key value c, the entries of key c appear
in the sorted output exactly as they appear in the input. -/
theorem filter_key_stableSort {α : Type} (key : α → Nat) (c : Nat) :
    ∀ l : List α,
      (stableSort (keyGE key) l).filter (fun x => decide (key x = c)) =
        l.filter (fun x => decide (key x = c)) := by
  intro l
  induction l with
  | nil => rfl
  | cons a as ih =>
    rw [stableSort, filter_key_insSorted key c a (stableSort (keyGE key) as)]
    by_cases hc : key a = c
    · simp [List.filter, hc, ih]
    · simp [List.filter, hc, ih]

/-- Membership is preserved by first-seen deduplication. -/
theorem mem_firstSeen : ∀ (l : List Str) (x : Str), x ∈ firstSeen l ↔ x ∈ l := by
  intro l
  induction l with
  | nil => intro x; rfl
  | cons w ws ih =>
    intro x
    rw [firstSeen]
    simp only [List.mem_cons, List.mem_filter, ih, decide_eq_true_eq]
    constructor
    · rintro (rfl | ⟨hx, _⟩)
      · exact Or.inl rfl
      · exact Or.inr hx
    · rintro (rfl | hx)
      · exact Or.inl rfl
      · by_cases hw : x = w
        · exact Or.inl hw
        · exact Or.inr ⟨hx, hw⟩

/-- First-seen deduplication yields a duplicate-free list. -/
theorem nodup_firstSeen : ∀ l : List Str, (firstSeen l).Nodup := by
  intro l
  induction l with
  | nil => exact List.nodup_nil
  | cons w ws ih =>
    rw [firstSeen, List.nodup_cons]
    refine ⟨?_, ih.filter _⟩
    intro hmem
    rw [List.mem_filter, decide_eq_true_eq] at hmem
    exact hmem.2 rfl

/-- A string with no separator characters splits into a single piece. -/
theorem splitAux_no_sep (p : Char → Bool) :
    ∀ (s acc : List Char), (∀ c ∈ s, p c = false) → splitAux p s acc = [acc.reverse ++ s] := by
  intro s
  induction s with
  | nil => intro acc _; simp [splitAux]
  | cons c cs ih =>
    intro acc h
    rw [splitAux, if_neg]
    · rw [ih (c :: acc) (fun d hd => h d (List.mem_cons_of_mem c hd))]
      simp
    · simp [h c (List.mem_cons_self c cs)]

/-- Concatenating the pieces of a split recovers the input minus its
separator characters. -/
theorem flatten_splitAux (p : Char → Bool) :
    ∀ (s acc : List Char),
      (splitAux p s acc).flatten = acc.reverse ++ s.filter (fun c => !p c) := by
  intro s
  induction s with
  | nil => intro acc; simp [splitAux]
  | cons c cs ih =>
    intro acc
    rw [splitAux]
    split
    · next hc =>
      simp only [List.flatten_cons, ih [], List.reverse_nil, List.nil_append]
      simp [List.filter_cons, hc]
    · next hc =>
      rw [ih (c :: acc)]
      rw [Bool.not_eq_true] at hc
      simp [List.filter_cons, hc]

/-- The head of a dropWhile result fails the predicate. -/
theorem dropWhile_head_false {p : Char → Bool} :
    ∀ {l a t}, List.dropWhile p l = a :: t → p a = false := by
  intro l
  induction l with
  | nil => intro a t h; simp [List.dropWhile] at h
  | cons c cs ih =>
    intro a t h
    rw [List.dropWhile_cons] at h
    split at h
    · exact ih h
    · next hc => cases h; simpa using hc

/-- A non-empty stripped string contains a non-whitespace character. -/
theorem strip_has_non_ws (s : Str) (h : pyStrip s ≠ []) :
    ∃ c ∈ pyStrip s, isWS c = false := by
  rw [pyStrip] at h ⊢
  cases hu : List.dropWhile isWS (s.dropWhile isWS).reverse with
  | nil => rw [hu] at h; simp at h
  | cons b u2 =>
    refine ⟨b, ?_, dropWhile_head_false hu⟩
    simp

/-- Python strip is idempotent: a stripped string strips to itself. -/
theorem pyStrip_idem (s : Str) : pyStrip (pyStrip s) = pyStrip s := by
  by_cases h : pyStrip s = []
  · rw [h]; rfl
  · have hu : pyStrip s = (List.dropWhile isWS (s.dropWhile isWS).reverse).reverse := rfl
    have ht := congrArg List.reverse
      (List.takeWhile_append_dropWhile isWS (s.dropWhile isWS).reverse)
    rw [List.reverse_append, List.reverse_reverse] at ht
    cases hur : (List.dropWhile isWS (s.dropWhile isWS).reverse).reverse with
    | nil => exact absurd (hu.trans hur) h
    | cons d r =>
      rw [hur, List.cons_append] at ht
      have hd : isWS d = false := dropWhile_head_false ht.symm
      cases huc : List.dropWhile isWS (s.dropWhile isWS).reverse with
      | nil => rw [huc] at hur; simp at hur
      | cons b u2 =>
        have hb : isWS b = false := dropWhile_head_false huc
        rw [hu, hur, pyStrip, List.dropWhile_cons, hd]
        simp only [Bool.false_eq_true, if_false]
        rw [← hur, List.reverse_reverse, huc, List.dropWhile_cons, hb]
        simp only [Bool.false_eq_true, if_false]

/-- A string containing a non-whitespace character has at least one token. -/
theorem pySplit_ne_nil (s : Str) (h : ∃ c ∈ s, isWS c = false) : pySplit s ≠ [] := by
  intro hnil
  obtain ⟨c, hc, hcf⟩ := h
  rw [pySplit] at hnil
  have hall : ∀ t ∈ splitOnPred isWS s, t = [] := by
    intro t ht
    have := List.filter_eq_nil_iff.mp hnil t ht
    simpa using this
  have hflat : (splitOnPred isWS s).flatten = [] := List.flatten_eq_nil_iff.mpr hall
  rw [splitOnPred, flatten_splitAux] at hflat
  simp only [List.reverse_nil, List.nil_append] at hflat
  have := List.filter_eq_nil_iff.mp hflat c hc
  simp [hcf] at this

/-- Every token produced by str.split() is non-empty. -/
theorem pySplit_mem_ne_nil (s : Str) : ∀ t ∈ pySplit s, t ≠ [] := by
  intro t ht
  rw [pySplit, List.mem_filter] at ht
  simpa using ht.2

/-- The value of Python max(a :: as, key=key): it occurs in the list, its key
is maximal, and every element strictly before it has a strictly smaller key
(so it is the first element attaining the maximum). -/
theorem runMax_spec {α : Type} (key : α → Nat) :
    ∀ (as : List α) (a : α),
      ∃ pre post, a :: as = pre ++ runMax key a as :: post ∧
        (∀ x ∈ pre, key x < key (runMax key a as)) ∧
        (∀ x ∈ a :: as, key x ≤ key (runMax key a as)) := by
  intro as
  induction as with
  | nil =>
    intro a
    exact ⟨[], [], rfl, by simp, by simp [runMax, List.foldl]⟩
  | cons b bs ih =>
    intro a
    have hstep : runMax key a (b :: bs) = runMax key (if key a < key b then b else a) bs := by
      simp [runMax, List.foldl]
    by_cases hab : key a < key b
    · rw [hstep, if_pos hab] at *
      obtain ⟨pre, post, heq, hpre, hall⟩ := ih b
      refine ⟨a :: pre, post, ?_, ?_, ?_⟩
      · rw [List.cons_append, ← heq]
      · intro x hx
        rw [List.mem_cons] at hx
        rcases hx with rfl | hx
        · exact hab.trans_le (hall b (List.mem_cons_self b bs))
        · exact hpre x hx
      · intro x hx
        rw [List.mem_cons] at hx
        rcases hx with rfl | hx
        · exact (hab.trans_le (hall b (List.mem_cons_self b bs))).le
        · exact hall x hx
    · rw [hstep, if_neg hab] at *
      push_neg at hab
      obtain ⟨pre, post, heq, hpre, hall⟩ := ih a
      cases pre with
      | nil =>
        simp only [List.nil_append] at heq
        have ha : a = runMax key a bs := (List.cons.injEq _ _ _ _).mp heq |>.1
        refine ⟨[], b :: bs, ?_, by simp, ?_⟩
        · rw [List.nil_append, ← ha]
        · intro x hx
          rw [List.mem_cons] at hx
          rcases hx with rfl | hx
          · exact le_of_eq (congrArg key ha)
          · rw [List.mem_cons] at hx
            rcases hx with rfl | hx
            · exact hab.trans (le_of_eq (congrArg key ha))
            · exact hall x (List.mem_cons_of_mem a hx)
      | cons p ps =>
        rw [List.cons_append] at heq
        have hpa : p = a := ((List.cons.injEq _ _ _ _).mp heq).1.symm
        have hbs : bs = ps ++ runMax key a bs :: post := ((List.cons.injEq _ _ _ _).mp heq).2
        subst hpa
        have hplt : key p < key (runMax key p bs) := hpre p (List.mem_cons_self p ps)
        refine ⟨p :: b :: ps, post, ?_, ?_, ?_⟩
        · rw [List.cons_append, List.cons_append, ← hbs]
        · intro x hx
          rw [List.mem_cons] at hx
          rcases hx with rfl | hx
          · exact hplt
          · rw [List.mem_cons] at hx
            rcases hx with rfl | hx
            · exact lt_of_le_of_lt hab hplt
            · exact hpre x (List.mem_cons_of_mem p hx)
        · intro x hx
          rw [List.mem_cons] at hx
          rcases hx with rfl | hx
          · exact hplt.le
          · rw [List.mem_cons] at hx
            rcases hx with rfl | hx
            · exact hab.trans hplt.le
            · exact hall x (List.mem_cons_of_mem p hx)

/-- A list is no longer than the sum of a per-element weight that is at
least 1 everywhere. -/
theorem length_le_sum_map {α : Type} (f : α → Nat) :
    ∀ l : List α, (∀ x ∈ l, 1 ≤ f x) → l.length ≤ (l.map f).sum := by
  intro l
  induction l with
  | nil => intro _; simp
  | cons a as ih =>
    intro h
    simp only [List.length_cons, List.map_cons, List.sum_cons]
    have h1 : 1 ≤ f a := h a (List.mem_cons_self a as)
    have h2 : as.length ≤ (as.map f).sum := ih (fun x hx => h x (List.mem_cons_of_mem a hx))
    omega

/-- C1: the claim says an empty WordSequence or SentenceSequence makes
make_analytics raise EmptyContentError and never yields a NaN or a
max-of-empty failure. The code does the opposite: no EmptyContentError exists
anywhere (exceptions.py defines only UrlError); on the empty document
np.mean/np.median of the empty arrays are NaN (modelled none) and
max(sentences, ...) raises ValueError, modelled as make_analytics
returning none. This theorem evaluates the code at that failing input. -/
theorem claim1_empty_content_failure :
    make_analytics [] [] = none ∧ npMean [] = none ∧ npMedian [] = none ∧
    fetchSentences [] = [] ∧ fetchWords [] = [] :=
  ⟨rfl, rfl, rfl, rfl, rfl⟩

/-- C2: the claim says __str__ renders the longest-sentence field as plain
text and succeeds on every computed report. In the code, line 348 applies the
:.2f format spec to the longest_sentence string, which raises ValueError, so
rendering fails (none) for every report produced by make_analytics —
the dict always stores a str under "longest_sentence" and the :.2f spec on a
str is an error. -/
theorem claim2_str_formatting_fails (url : Str) (a : AnalyticsData) :
    pageAnalyticsStr { url := url, analytics_data := analyticsDict a } = none ∧
    applyF2 (PyVal.s a.longest_sentence) = none :=
  ⟨rfl, rfl⟩

/-- C3 counterexample: save_to_json mutates the report it serializes. On the
report computed from the specification's example document, the analytics_data
dict differs after save_to_json: the key "url" was absent before the call and
present afterwards. -/
theorem claim3_cex :
    (save_to_json examplePage).1.analytics_data ≠ examplePage.analytics_data ∧
    pystr "url" ∉ examplePage.analytics_data.map Prod.fst ∧
    pystr "url" ∈ (save_to_json examplePage).1.analytics_data.map Prod.fst := by
  refine ⟨?_, by decide, by decide⟩
  intro hcontra
  have h1 : (save_to_json examplePage).1.analytics_data.length = 9 := rfl
  have h2 : examplePage.analytics_data.length = 8 := rfl
  have h3 := congrArg List.length hcontra
  rw [h1, h2] at h3
  exact absurd h3 (by decide)

/-- C3 amended: save_to_json does mutate the in-memory report, but only by
appending the Document identifier under the key "url" (when that key is not
already present); every previously stored key/value pair is kept unchanged and
in place, and the serialized record equals the mutated dict. -/
theorem claim3_amended (p : PageAnalytics)
    (h : pystr "url" ∉ p.analytics_data.map Prod.fst) :
    (save_to_json p).1.analytics_data = p.analytics_data ++ [(pystr "url", PyVal.s p.url)] ∧
    (save_to_json p).2 = (save_to_json p).1.analytics_data ∧
    (save_to_json p).1.url = p.url ∧
    (∀ e ∈ p.analytics_data, e ∈ (save_to_json p).1.analytics_data) := by
  have hany : p.analytics_data.any (fun e => decide (e.1 = pystr "url")) = false := by
    rw [List.any_eq_false]
    intro e he
    simp only [decide_eq_true_eq]
    intro hk
    exact h (List.mem_map.mpr ⟨e, he, hk⟩)
  have heq : (save_to_json p).1.analytics_data =
      p.analytics_data ++ [(pystr "url", PyVal.s p.url)] := by
    show dictSet p.analytics_data (pystr "url") (PyVal.s p.url) = _
    rw [dictSet]
    simp [hany]
  refine ⟨heq, rfl, rfl, ?_⟩
  intro e he
  rw [heq]
  exact List.mem_append_left _ he

/-- C3 witness: the amended statement instantiated at the example report. -/
theorem claim3_witness :
    (save_to_json examplePage).1.analytics_data =
      examplePage.analytics_data ++ [(pystr "url", PyVal.s examplePage.url)] ∧
    (save_to_json examplePage).2 = (save_to_json examplePage).1.analytics_data ∧
    (save_to_json examplePage).1.url = examplePage.url ∧
    (∀ e ∈ examplePage.analytics_data, e ∈ (save_to_json examplePage).1.analytics_data) :=
  claim3_amended examplePage (by decide)

/-- C10 counterexample: extraction does retain state between invocations.
Running extract_words on a second, different page with the same Extractor
instance returns the first page's words, which differ from the second
page's own words. -/
theorem claim10_cex :
    (extract_words (extract_words { sentences := none, words := none }
        [pystr "Hello world."]).1 [pystr "Bye now."]).2 =
      fetchWords (fetchSentences [pystr "Hello world."]) ∧
    fetchWords (fetchSentences [pystr "Hello world."]) ≠
      fetchWords (fetchSentences [pystr "Bye now."]) :=
  ⟨rfl, by decide⟩

/-- C10 amended: the word extraction computed by _fetch_data is a
deterministic pure function of the input paragraphs — on a fresh Extractor,
extract_words returns exactly the given page's words — but each Extractor
instance caches its first result: whenever self.words is already set, a
further extract_words call ignores its RawPage argument and returns the
cached list, so reusing one instance on a second page yields the first
page's words. -/
theorem claim10_amended :
    (∀ ps, (extract_words { sentences := none, words := none } ps).2 =
      fetchWords (fetchSentences ps)) ∧
    (∀ (e : Extractor) (ws ps : List Str),
      e.words = some ws → (extract_words e ps).2 = ws) := by
  refine ⟨fun ps => rfl, ?_⟩
  intro e ws ps h
  obtain ⟨es, ew⟩ := e
  cases ew with
  | none => exact absurd h (by simp)
  | some w =>
    obtain rfl : w = ws := by simpa using h
    rfl

/-- C10 witness: the amended statement at concrete pages — a fresh instance
computes the page's own words, a primed instance returns its cache. -/
theorem claim10_witness :
    (extract_words { sentences := none, words := none } [pystr "Hello world."]).2 =
      fetchWords (fetchSentences [pystr "Hello world."]) ∧
    (extract_words { sentences := none, words := some [pystr "cached"] }
      [pystr "Bye now."]).2 = [pystr "cached"] :=
  ⟨claim10_amended.1 [pystr "Hello world."], claim10_amended.2 _ _ _ rfl⟩

/-- C4: top_10_words is drawn from the top-20 table, not from the full
vocabulary: it is literally the 10-entry prefix of word_freq_top20 (re-sorting
an already descending table is the identity), hence a subset of it; the kept
entries dominate the dropped ones in count; and for every count value the
entries appear in first-seen order (the order of the Counter table), i.e.
ties in the ranking are broken by first-seen order. -/
theorem claim4_top10_from_top20 (ws : List Str) :
    top_10_word_freq ws = (word_freq_top20 ws).take 10 ∧
    (∀ e ∈ top_10_word_freq ws, e ∈ word_freq_top20 ws) ∧
    (∀ e ∈ top_10_word_freq ws, ∀ f ∈ word_freq_top20 ws,
      f ∉ top_10_word_freq ws → f.2 ≤ e.2) ∧
    (∀ c : Nat, ((top_10_word_freq ws).filter (fun e => decide (e.2 = c))).Sublist
      ((counter ws).filter (fun e => decide (e.2 = c)))) := by
  have hsorted : (stableSort (keyGE Prod.snd) (counter ws)).Pairwise
      (fun x y => Prod.snd y ≤ Prod.snd x) := pairwise_stableSort Prod.snd (counter ws)
  have h20 : (word_freq_top20 ws).Pairwise (fun x y => Prod.snd y ≤ Prod.snd x) := by
    show ((stableSort (keyGE Prod.snd) (counter ws)).take 20).Pairwise _
    exact hsorted.sublist (List.take_sublist 20 _)
  have h1 : top_10_word_freq ws = (word_freq_top20 ws).take 10 := by
    show (stableSort (keyGE Prod.snd) (word_freq_top20 ws)).take 10 = _
    rw [stableSort_eq_of_pairwise Prod.snd _ h20]
  refine ⟨h1, ?_, ?_, ?_⟩
  · intro e he
    rw [h1] at he
    exact List.take_subset 10 _ he
  · intro e he f hf hf10
    have hsplit := List.take_append_drop 10 (word_freq_top20 ws)
    have h20split : ((word_freq_top20 ws).take 10 ++ (word_freq_top20 ws).drop 10).Pairwise
        (fun x y => Prod.snd y ≤ Prod.snd x) := by rw [hsplit]; exact h20
    have hcross := (List.pairwise_append.mp h20split).2.2
    have hfd : f ∈ (word_freq_top20 ws).drop 10 := by
      have hf2 : f ∈ (word_freq_top20 ws).take 10 ++ (word_freq_top20 ws).drop 10 := by
        rw [hsplit]; exact hf
      rcases List.mem_append.mp hf2 with hft | hfd
      · rw [h1] at hf10; exact absurd hft hf10
      · exact hfd
    have he2 : e ∈ (word_freq_top20 ws).take 10 := by rw [← h1]; exact he
    exact hcross e he2 f hfd
  · intro c
    have hsub20 : (word_freq_top20 ws).Sublist (stableSort (keyGE Prod.snd) (counter ws)) := by
      show ((stableSort (keyGE Prod.snd) (counter ws)).take 20).Sublist _
      exact List.take_sublist 20 _
    have hsub : (top_10_word_freq ws).Sublist (stableSort (keyGE Prod.snd) (counter ws)) := by
      rw [h1]
      exact (List.take_sublist 10 _).trans hsub20
    have hfil := hsub.filter (fun e => decide (e.2 = c))
    rw [filter_key_stableSort Prod.snd c (counter ws)] at hfil
    exact hfil

/-- C4 witness: eleven distinct words, one repeated, instantiating the
prefix identity, the subset relation, the count dominance between a kept and a
dropped entry, and the tie-stability sublist. -/
def wsFreqEx : List Str :=
  List.map pystr ["a", "b", "c", "d", "e", "f", "g", "h", "i", "j", "k", "a"]

theorem claim4_witness :
    top_10_word_freq wsFreqEx = (word_freq_top20 wsFreqEx).take 10 ∧
    (pystr "a", 2) ∈ word_freq_top20 wsFreqEx ∧
    (pystr "k", 1).2 ≤ (pystr "a", 2).2 ∧
    ((top_10_word_freq wsFreqEx).filter (fun e => decide (e.2 = 1))).Sublist
      ((counter wsFreqEx).filter (fun e => decide (e.2 = 1))) :=
  ⟨(claim4_top10_from_top20 wsFreqEx).1,
   (claim4_top10_from_top20 wsFreqEx).2.1 (pystr "a", 2) (by decide),
   (claim4_top10_from_top20 wsFreqEx).2.2.1 (pystr "a", 2) (by decide)
     (pystr "k", 1) (by decide) (by decide),
   (claim4_top10_from_top20 wsFreqEx).2.2.2 1⟩

/-- C5: every entry of top_10_words_filtered comes from the top-20 table and
its lowercased word is not a stopword; and when the filtered table has fewer
than 10 entries they are all returned — same membership and same length, no
padding and no failure. -/
theorem claim5_filtered_top10 (ws : List Str) :
    (∀ e ∈ top_10_filtered_word_freq ws,
      e ∈ word_freq_top20 ws ∧ lowerStr e.1 ∉ stopwords) ∧
    ((filtered_word_freq ws).length < 10 →
      (∀ e, e ∈ top_10_filtered_word_freq ws ↔ e ∈ filtered_word_freq ws) ∧
      (top_10_filtered_word_freq ws).length = (filtered_word_freq ws).length) := by
  constructor
  · intro e he
    have he2 : e ∈ stableSort (keyGE Prod.snd) (filtered_word_freq ws) :=
      List.take_subset 10 _ he
    rw [mem_stableSort, filtered_word_freq, List.mem_filter] at he2
    obtain ⟨h20, hsw⟩ := he2
    refine ⟨h20, ?_⟩
    simpa using hsw
  · intro hlen
    have hlen2 : (stableSort (keyGE Prod.snd) (filtered_word_freq ws)).length ≤ 10 := by
      rw [length_stableSort]; omega
    have htake : top_10_filtered_word_freq ws =
        stableSort (keyGE Prod.snd) (filtered_word_freq ws) := by
      show (stableSort (keyGE Prod.snd) (filtered_word_freq ws)).take 10 = _
      exact List.take_of_length_le hlen2
    constructor
    · intro e
      rw [htake, mem_stableSort]
    · rw [htake, length_stableSort]

/-- C5 witness: a vocabulary where the stopword "the" tops the counts; the
filtered ranking keeps both remaining entries (2 < 10): same membership, same
length. -/
def wsStopEx : List Str := List.map pystr ["Hello", "world", "the", "the"]

theorem claim5_witness :
    ((pystr "Hello", 1) ∈ word_freq_top20 wsStopEx ∧
      lowerStr (pystr "Hello") ∉ stopwords) ∧
    ((pystr "world", 1) ∈ top_10_filtered_word_freq wsStopEx ↔
      (pystr "world", 1) ∈ filtered_word_freq wsStopEx) ∧
    (top_10_filtered_word_freq wsStopEx).length = (filtered_word_freq wsStopEx).length :=
  ⟨(claim5_filtered_top10 wsStopEx).1 (pystr "Hello", 1) (by decide),
   ((claim5_filtered_top10 wsStopEx).2 (by decide)).1 (pystr "world", 1),
   ((claim5_filtered_top10 wsStopEx).2 (by decide)).2⟩

/-- C6: the sentence segmenter. "A. B! C?" segments to ["A", "B", "C"]; the
segmenter distributes over paragraph concatenation (each paragraph is split
independently, results concatenated in paragraph order); a single paragraph
is processed by split-strip-filter; a paragraph without terminator characters
yields exactly its stripped text; the empty paragraph sequence yields the
empty sentence sequence; and every produced sentence is non-empty, already
stripped, and not pure whitespace. -/
theorem claim6_segmenter :
    fetchSentences [pystr "A. B! C?"] = [pystr "A", pystr "B", pystr "C"] ∧
    (∀ ps qs, fetchSentences (ps ++ qs) = fetchSentences ps ++ fetchSentences qs) ∧
    (∀ p : Str, fetchSentences [p] =
      ((splitOnPred isTerm p).map pyStrip).filter (fun s => !s.isEmpty)) ∧
    (∀ p : Str, (∀ c ∈ p, isTerm c = false) → pyStrip p ≠ [] →
      fetchSentences [p] = [pyStrip p]) ∧
    fetchSentences [] = [] ∧
    (∀ ps, ∀ s ∈ fetchSentences ps, s ≠ [] ∧ pyStrip s = s ∧ ∃ c ∈ s, isWS c = false) := by
  refine ⟨by decide, ?_, ?_, ?_, rfl, ?_⟩
  · intro ps qs
    simp [fetchSentences]
  · intro p
    simp [fetchSentences]
  · intro p hterm hne
    have hsingle : fetchSentences [p] =
        ((splitOnPred isTerm p).map pyStrip).filter (fun s => !s.isEmpty) := by
      simp [fetchSentences]
    rw [hsingle, splitOnPred, splitAux_no_sep isTerm p [] hterm]
    have hie : (pyStrip p).isEmpty = false := by
      cases hps : pyStrip p with
      | nil => exact absurd hps hne
      | cons a t => rfl
    simp [List.filter, hie]
  · intro ps s hs
    rw [fetchSentences, List.mem_flatMap] at hs
    obtain ⟨text, _, hs2⟩ := hs
    rw [List.mem_filter] at hs2
    obtain ⟨hmap, hne⟩ := hs2
    rw [List.mem_map] at hmap
    obtain ⟨piece, _, rfl⟩ := hmap
    have hsn : pyStrip piece ≠ [] := by simpa using hne
    exact ⟨hsn, pyStrip_idem piece, strip_has_non_ws piece hsn⟩

/-- C6 witness: a terminator-free paragraph segments to its stripped self, and
a concrete produced sentence is non-empty, stripped and not whitespace. -/
theorem claim6_witness :
    fetchSentences [pystr "Hello world"] = [pyStrip (pystr "Hello world")] ∧
    (pystr "Dogs bark" ≠ [] ∧ pyStrip (pystr "Dogs bark") = pystr "Dogs bark" ∧
      ∃ c ∈ pystr "Dogs bark", isWS c = false) :=
  ⟨claim6_segmenter.2.2.2.1 (pystr "Hello world") (by decide) (by decide),
   claim6_segmenter.2.2.2.2.2 exParagraphs (pystr "Dogs bark") (by decide)⟩

/-- C7: for a non-empty sentence sequence, make_analytics succeeds and its
longest_sentence field is the first sentence attaining the maximal word count:
it occurs in the sequence, every sentence strictly before it has a strictly
smaller word count, and no sentence has a larger one. -/
theorem claim7_longest_sentence (words sentences : List Str) (h : sentences ≠ []) :
    ∃ r pre post, make_analytics words sentences = some r ∧
      sentences = pre ++ r.longest_sentence :: post ∧
      (∀ s ∈ pre, wordCount s < wordCount r.longest_sentence) ∧
      (∀ s ∈ sentences, wordCount s ≤ wordCount r.longest_sentence) := by
  cases sentences with
  | nil => exact absurd rfl h
  | cons a as =>
    obtain ⟨pre, post, heq, hpre, hall⟩ := runMax_spec wordCount as a
    exact ⟨_, pre, post, rfl, heq, hpre, hall⟩

/-- C7 witness: on the example document the word counts are 3, 3, 2, and the
longest sentence is the first of the two tied sentences. -/
theorem claim7_witness :
    exSentences ≠ [] ∧
    (make_analytics exWords exSentences).map (fun r => r.longest_sentence) =
      some (pystr "The cat sat") ∧
    (∃ r pre post, make_analytics exWords exSentences = some r ∧
      exSentences = pre ++ r.longest_sentence :: post ∧
      (∀ s ∈ pre, wordCount s < wordCount r.longest_sentence) ∧
      (∀ s ∈ exSentences, wordCount s ≤ wordCount r.longest_sentence)) :=
  ⟨by decide, by decide, claim7_longest_sentence exWords exSentences (by decide)⟩

/-- C8: top_10_longest_words is by construction the first 10 of the stable
descending-length sort collapsed into a word → length dict; this theorem
checks the claimed consequences: every stored value is the character length
of its key, keys are pairwise distinct (repeated words collapse into one
entry), the dict has no more entries than there are distinct words in the
WordSequence, its key set is exactly the word set of the taken ten, and this
is precisely the top_10_longest_words field make_analytics stores. -/
theorem claim8_longest_words (ws : List Str) :
    (∀ e ∈ longest_words_dict ws, e.2 = e.1.length) ∧
    ((longest_words_dict ws).map Prod.fst).Nodup ∧
    (longest_words_dict ws).length ≤ (firstSeen ws).length ∧
    (∀ w, w ∈ (longest_words_dict ws).map Prod.fst ↔ w ∈ longest_words ws) ∧
    (∀ sentences, sentences ≠ [] →
      (make_analytics ws sentences).map (fun r => r.top_10_longest_words) =
        some (longest_words_dict ws)) := by
  have hcomp : (Prod.fst ∘ fun w : Str => (w, w.length)) = id := rfl
  refine ⟨?_, ?_, ?_, ?_, ?_⟩
  · intro e he
    rw [longest_words_dict, List.mem_map] at he
    obtain ⟨w, _, rfl⟩ := he
    rfl
  · rw [longest_words_dict, List.map_map, hcomp, List.map_id]
    exact nodup_firstSeen _
  · rw [longest_words_dict, List.length_map]
    refine List.Subperm.length_le ?_
    refine (nodup_firstSeen _).subperm ?_
    intro x hx
    rw [mem_firstSeen] at hx
    rw [mem_firstSeen]
    have hx2 : x ∈ stableSort (keyGE List.length) ws := List.take_subset 10 _ hx
    rw [mem_stableSort] at hx2
    exact hx2
  · intro w
    rw [longest_words_dict, List.map_map, hcomp, List.map_id, mem_firstSeen]
  · intro sentences hne
    cases sentences with
    | nil => exact absurd rfl hne
    | cons a as => rfl

/-- C8 witness: with words ["bb", "a", "bb", "ccc"] the dict is
[("ccc", 3), ("bb", 2), ("a", 1)] — values are key lengths, the repeated
"bb" collapsed, three entries for three distinct words. -/
def wsLongEx : List Str := List.map pystr ["bb", "a", "bb", "ccc"]

theorem claim8_witness :
    (pystr "ccc", 3).2 = (pystr "ccc", 3).1.length ∧
    ((longest_words_dict wsLongEx).map Prod.fst).Nodup ∧
    (longest_words_dict wsLongEx).length ≤ (firstSeen wsLongEx).length ∧
    (pystr "ccc" ∈ (longest_words_dict wsLongEx).map Prod.fst ↔
      pystr "ccc" ∈ longest_words wsLongEx) ∧
    (make_analytics wsLongEx [pystr "x"]).map (fun r => r.top_10_longest_words) =
      some (longest_words_dict wsLongEx) :=
  ⟨(claim8_longest_words wsLongEx).1 (pystr "ccc", 3) (by decide),
   (claim8_longest_words wsLongEx).2.1,
   (claim8_longest_words wsLongEx).2.2.1,
   (claim8_longest_words wsLongEx).2.2.2.1 (pystr "ccc"),
   (claim8_longest_words wsLongEx).2.2.2.2 [pystr "x"] (by decide)⟩

/-- C9: the word sequence of a document is the flattening, in sentence order,
of the whitespace-split tokens of the segmenter's sentences; its length is the
sum of the per-sentence token counts; every token is non-empty; and since no
produced sentence is empty or pure whitespace, there are at least as many
words as sentences. -/
theorem claim9_tokenizer_flattening (paragraphs : List Str) :
    fetchWords (fetchSentences paragraphs) = (fetchSentences paragraphs).flatMap pySplit ∧
    (fetchWords (fetchSentences paragraphs)).length =
      ((fetchSentences paragraphs).map (fun s => (pySplit s).length)).sum ∧
    (∀ w ∈ fetchWords (fetchSentences paragraphs), w ≠ []) ∧
    (fetchSentences paragraphs).length ≤ (fetchWords (fetchSentences paragraphs)).length := by
  have hlen : ∀ sentences : List Str,
      (fetchWords sentences).length = (sentences.map (fun s => (pySplit s).length)).sum := by
    intro sentences
    rw [fetchWords, List.length_flatMap]
    rfl
  refine ⟨rfl, hlen _, ?_, ?_⟩
  · intro w hw
    rw [fetchWords, List.mem_flatMap] at hw
    obtain ⟨s, _, hw2⟩ := hw
    exact pySplit_mem_ne_nil s w hw2
  · rw [hlen]
    refine length_le_sum_map _ _ ?_
    intro s hs
    have hsplit : pySplit s ≠ [] := by
      rw [fetchSentences, List.mem_flatMap] at hs
      obtain ⟨text, _, hs2⟩ := hs
      rw [List.mem_filter] at hs2
      obtain ⟨hmap, hne⟩ := hs2
      rw [List.mem_map] at hmap
      obtain ⟨piece, _, rfl⟩ := hmap
      exact pySplit_ne_nil _ (strip_has_non_ws piece (by simpa using hne))
    have hpos := List.length_pos.mpr hsplit
    omega

/-- C9 witness: on the example document, a concrete token is non-empty and
there are at least as many words (8) as sentences (3). -/
theorem claim9_witness :
    pystr "The" ≠ [] ∧
    (fetchSentences exParagraphs).length ≤ (fetchWords (fetchSentences exParagraphs)).length :=
  ⟨(claim9_tokenizer_flattening exParagraphs).2.2.1 (pystr "The") (by decide),
   (claim9_tokenizer_flattening exParagraphs).2.2.2⟩
